import Mathlib

/-!
Verification of the jarvis-memory retrieval-and-lifecycle engine.

The definitions below are a shallow embedding of the TypeScript sources:
`database.ts` (the Record Store driver: searchSimilar, searchText, storeMemory,
forgetMemories, countMemories, evictLowest) and `index.ts` (the tool handlers
memory_search, memory_store, memory_forget).  The persistent table is modelled
as a list of rows in insertion order together with the next SERIAL id; SQL
NOW() is an explicit `now` parameter; float columns are modelled as rationals;
the embedding provider is an explicit `Option` argument (`none` = the provider
failed, mirroring the thrown error caught by the tool handlers).
-/

attribute [local semireducible] Rat.mul Rat.add Rat.inv

set_option maxRecDepth 8192

namespace Jarvis

/-- Row of the jarvis_memory table (interface MemoryEntry in database.ts). -/
structure Entry where
  id : Nat
  user_id : String
  content : String
  embedding : List ℚ
  importance : ℚ
  memory_type : String
  metadata : List (String × String)
  access_count : Nat
  last_accessed_at : Nat
  created_at : Nat
  updated_at : Nat
deriving DecidableEq

/-- Search row: a MemoryEntry plus the computed similarity column. -/
structure SearchResult where
  entry : Entry
  similarity : ℚ
deriving DecidableEq

/-- The database state: table rows in insertion order plus the next SERIAL id. -/
structure State where
  entries : List Entry
  nextId : Nat
deriving DecidableEq

/-- Well-formedness maintained by the schema: SERIAL ids are pairwise distinct
and below the id counter. -/
def WF (s : State) : Prop :=
  (s.entries.map (fun e => e.id)).Nodup ∧ ∀ e ∈ s.entries, e.id < s.nextId

instance (s : State) : Decidable (WF s) :=
  inferInstanceAs
    (Decidable ((s.entries.map (fun e : Entry => e.id)).Nodup ∧ ∀ e ∈ s.entries, e.id < s.nextId))

/-- Config constant MAX_MEMORIES_PER_USER in index.ts. -/
def MAX_MEMORIES_PER_USER : Nat := 1000

/-- Config constant MIN_RESULTS_FOR_FALLBACK in index.ts. -/
def MIN_RESULTS_FOR_FALLBACK : Nat := 3

/-- Dedup similarity bar used by memory_store (searchSimilar with threshold 0.95). -/
def dedupThreshold : ℚ := 95 / 100

/-- ASCII case folding used to model the case-insensitivity of ILIKE. -/
def lowerChar (c : Char) : Char :=
  if 'A' ≤ c ∧ c ≤ 'Z' then Char.ofNat (c.toNat + 32) else c

/-- SQL LIKE/ILIKE pattern matching (case-insensitive): a percent sign matches
any sequence of characters, an underscore matches exactly one character, any
other pattern character matches itself up to case.  Escape sequences are not
modelled; the theorems that depend on literal matching restrict the query to
contain no percent sign, underscore or backslash. -/
def likeMatch : List Char → List Char → Bool
  | [], cs => cs.isEmpty
  | p :: ps, cs =>
    if p = '%' then
      (List.range (cs.length + 1)).any (fun i => likeMatch ps (cs.drop i))
    else
      match cs with
      | [] => false
      | c :: cs2 => (p == '_' || lowerChar p == lowerChar c) && likeMatch ps cs2

/-- Content matches an ILIKE pattern of the shape a percent sign, then the query,
then a percent sign — exactly the pattern built by searchText and forgetMemories. -/
def ilikeContains (query content : String) : Bool :=
  likeMatch ('%' :: (query.data ++ ['%'])) content.data

/-- Case-insensitive substring containment, the reading the specification gives
to the ILIKE filter. -/
def containsCI (hay needle : List Char) : Prop :=
  (needle.map lowerChar) <:+: (hay.map lowerChar)

instance (hay needle : List Char) : Decidable (containsCI hay needle) :=
  List.decidableInfix _ _

/-- The similarity column: the SQL computes 1 - (embedding <=> query), i.e.
cosine similarity.  The embeddings the engine stores are unit-normalized
(embeddings.ts calls the model with normalize set), for which cosine similarity
is the dot product. -/
def cosineSimilarity (a b : List ℚ) : ℚ :=
  (List.zipWith (fun x y => x * y) a b).sum

/-- Rows of a user, in table order (WHERE user_id = uid). -/
def ownedEntries (s : State) (uid : String) : List Entry :=
  s.entries.filter (fun e => e.user_id == uid)

/-- SELECT COUNT(*) FROM jarvis_memory WHERE user_id = uid (countMemories). -/
def countOwned (s : State) (uid : String) : Nat :=
  (ownedEntries s uid).length

/-- The UPDATE run by searchSimilar on the retrieved rows: increment
access_count and set last_accessed_at to NOW(). -/
def bumpState (s : State) (ids : List Nat) (now : Nat) : State :=
  { s with entries := s.entries.map (fun e =>
      if e.id ∈ ids then
        { e with access_count := e.access_count + 1, last_accessed_at := now }
      else e) }

/-- ORDER BY similarity DESC, as a relation on rows. -/
def simOrd (qv : List ℚ) (a b : Entry) : Prop :=
  cosineSimilarity qv b.embedding ≤ cosineSimilarity qv a.embedding

instance (qv : List ℚ) : DecidableRel (simOrd qv) := fun a b =>
  inferInstanceAs (Decidable (cosineSimilarity qv b.embedding ≤ cosineSimilarity qv a.embedding))

/-- The SELECT of searchSimilar: rows of the user whose similarity meets the
threshold, ordered by similarity descending, limited to lim, with the
similarity column attached. -/
def searchSimilarRows (s : State) (uid : String) (qv : List ℚ) (lim : Nat) (thr : ℚ) :
    List SearchResult :=
  (((s.entries.filter (fun e =>
      e.user_id == uid && decide (thr ≤ cosineSimilarity qv e.embedding))).insertionSort
        (simOrd qv)).take lim).map
    (fun e => { entry := e, similarity := cosineSimilarity qv e.embedding })

/-- searchSimilar in database.ts: the SELECT followed by the access-count
UPDATE on the retrieved ids.  Returns the selected rows (with their
pre-update columns) and the updated state. -/
def searchSimilar (s : State) (now : Nat) (uid : String) (qv : List ℚ) (lim : Nat) (thr : ℚ) :
    List SearchResult × State :=
  let rs := searchSimilarRows s uid qv lim thr
  (rs, bumpState s (rs.map (fun r => r.entry.id)) now)

/-- ORDER BY importance DESC, updated_at DESC used by searchText. -/
def textOrd (a b : Entry) : Prop :=
  b.importance < a.importance ∨ (b.importance = a.importance ∧ b.updated_at ≤ a.updated_at)

instance : DecidableRel textOrd := fun a b =>
  inferInstanceAs
    (Decidable (b.importance < a.importance ∨ (b.importance = a.importance ∧ b.updated_at ≤ a.updated_at)))

/-- searchText in database.ts: rows of the user whose content matches
ILIKE the query surrounded by percent signs, ordered by importance then
recency, limited to lim.  Performs no update. -/
def searchText (s : State) (uid query : String) (lim : Nat) : List Entry :=
  ((s.entries.filter (fun e =>
      e.user_id == uid && ilikeContains query e.content)).insertionSort textOrd).take lim

/-- Token count of the query as computed by query.split(' ').length in
index.ts: one more than the number of space characters. -/
def tokenCount (q : String) : Nat :=
  q.data.count ' ' + 1

/-- The fallback merge loop of memory_search: iterate the text results and
append any whose id is not already present, stamped with the neutral 0.5
similarity. -/
def mergeFallback (vres : List SearchResult) (trs : List Entry) : List SearchResult :=
  trs.foldl
    (fun acc t =>
      if acc.any (fun r => r.entry.id == t.id) then acc
      else acc ++ [{ entry := t, similarity := 1 / 2 }])
    vres

/-- Outcome of the memory_search tool. -/
inductive SearchOutcome where
  | ok (results : List SearchResult)
  | error
deriving DecidableEq

/-- Number of results reported by a search outcome. -/
def resultCount : SearchOutcome → Nat
  | .ok rs => rs.length
  | .error => 0

/-- The memory_search tool handler in index.ts: embed the query (embedResult
is the provider's answer, none meaning it threw), run searchSimilar, and when
fewer than MIN_RESULTS_FOR_FALLBACK rows came back and the query has at most
three tokens, merge in the searchText fallback rows.  The merged list is not
truncated. -/
def memory_search (s : State) (now : Nat) (uid query : String)
    (embedResult : Option (List ℚ)) (lim : Nat) (thr : ℚ) : SearchOutcome × State :=
  match embedResult with
  | none => (.error, s)
  | some qv =>
    let vres := searchSimilarRows s uid qv lim thr
    let s2 := bumpState s (vres.map (fun r => r.entry.id)) now
    let results :=
      if vres.length < MIN_RESULTS_FOR_FALLBACK ∧ tokenCount query ≤ 3 then
        mergeFallback vres (searchText s2 uid query lim)
      else vres
    (.ok results, s2)

/-- storeMemory in database.ts: INSERT with importance clamped to the unit
interval and the column defaults of the schema; returns the fresh SERIAL id. -/
def storeMemory (s : State) (now : Nat) (uid content : String) (emb : List ℚ)
    (importance : ℚ) (mtype : String) : Nat × State :=
  let e : Entry :=
    { id := s.nextId, user_id := uid, content := content, embedding := emb,
      importance := max 0 (min 1 importance), memory_type := mtype, metadata := [],
      access_count := 0, last_accessed_at := now, created_at := now, updated_at := now }
  (s.nextId, { entries := s.entries ++ [e], nextId := s.nextId + 1 })

/-- Value ordering of the eviction subquery: ORDER BY importance ASC,
access_count ASC.  Ties on both columns are unordered. -/
def keyLE (a b : Entry) : Prop :=
  a.importance < b.importance ∨ (a.importance = b.importance ∧ a.access_count ≤ b.access_count)

instance : DecidableRel keyLE := fun a b =>
  inferInstanceAs
    (Decidable (a.importance < b.importance ∨
      (a.importance = b.importance ∧ a.access_count ≤ b.access_count)))

instance : IsTotal Entry keyLE := by
  constructor
  intro a b
  unfold keyLE
  rcases lt_trichotomy a.importance b.importance with h | h | h
  · exact Or.inl (Or.inl h)
  · rcases le_total a.access_count b.access_count with h2 | h2
    · exact Or.inl (Or.inr ⟨h, h2⟩)
    · exact Or.inr (Or.inr ⟨h.symm, h2⟩)
  · exact Or.inr (Or.inl h)

instance : IsTrans Entry keyLE := by
  constructor
  intro a b c hab hbc
  unfold keyLE at *
  rcases hab with h1 | ⟨h1, h1c⟩
  · rcases hbc with h2 | ⟨h2, _⟩
    · exact Or.inl (h1.trans h2)
    · exact Or.inl (h2 ▸ h1)
  · rcases hbc with h2 | ⟨h2, h2c⟩
    · exact Or.inl (h1 ▸ h2)
    · exact Or.inr ⟨h1.trans h2, h1c.trans h2c⟩

/-- The subquery of evictLowest in database.ts: the ids of the first k rows of
the user ordered by (importance ASC, access_count ASC).  The model resolves
the unspecified tie order by table order (a stable sort); the relational
semantics `evictAllowedDel` below captures every tie order the SQL allows. -/
def evictVictims (s : State) (uid : String) (k : Nat) : List Nat :=
  ((List.insertionSort keyLE (ownedEntries s uid)).take k).map (fun e => e.id)

/-- The DELETE of evictLowest, removing the rows selected by `evictVictims`. -/
def evictLowest (s : State) (uid : String) (k : Nat) : State :=
  { s with entries := s.entries.filter (fun e => decide (e.id ∉ evictVictims s uid k)) }

/-- Relational semantics of evictLowest: the SQL orders the user's rows by
(importance ASC, access_count ASC) with an arbitrary order among ties, and
deletes the first k rows of that order.  `del` is one allowed deleted batch. -/
def evictAllowedDel (s : State) (uid : String) (k : Nat) (del : List Entry) : Prop :=
  ∃ l : List Entry, l.Perm (ownedEntries s uid) ∧ List.Sorted keyLE l ∧ del = l.take k

/-- Modelled from the spec: the value ordering the specification prescribes for
eviction, importance ascending then accessCount ascending with ties broken by
oldest createdAt first.  Used only to compare the claimed behaviour with the
code's. -/
def specKeyLE (a b : Entry) : Prop :=
  a.importance < b.importance ∨
    (a.importance = b.importance ∧
      (a.access_count < b.access_count ∨
        (a.access_count = b.access_count ∧ a.created_at ≤ b.created_at)))

instance : DecidableRel specKeyLE := fun a b =>
  inferInstanceAs
    (Decidable (a.importance < b.importance ∨
      (a.importance = b.importance ∧
        (a.access_count < b.access_count ∨
          (a.access_count = b.access_count ∧ a.created_at ≤ b.created_at)))))

/-- Modelled from the spec: the deleted batch the specification prescribes,
the k lowest-value entries under `specKeyLE`. -/
def specEvictOldestFirst (s : State) (uid : String) (k : Nat) : List Entry :=
  (List.insertionSort specKeyLE (ownedEntries s uid)).take k

/-- The capacity stage of memory_store: when the user's count has reached
MAX_MEMORIES_PER_USER, evict one entry. -/
def afterCapacity (s : State) (uid : String) : State :=
  if MAX_MEMORIES_PER_USER ≤ countOwned s uid then evictLowest s uid 1 else s

/-- Outcome of the memory_store tool. -/
inductive StoreOutcome where
  | created (id : Nat)
  | duplicate (existingId : Nat)
  | error
deriving DecidableEq

/-- The dedup probe of memory_store: searchSimilar with limit 1 and the dedup
threshold. -/
def dedupHits (s : State) (uid : String) (emb : List ℚ) : List SearchResult :=
  searchSimilarRows s uid emb 1 dedupThreshold

/-- The memory_store tool handler in index.ts, in the source's order: first
the capacity check (count and evict), then the embedding computation
(embedResult, none meaning the provider threw — the eviction, already
executed, persists), then the duplicate check via searchSimilar (whose
access-count update also persists), then the INSERT. -/
def memory_store (s : State) (now : Nat) (uid content : String)
    (embedResult : Option (List ℚ)) (importance : ℚ) (mtype : String) :
    StoreOutcome × State :=
  let s1 := afterCapacity s uid
  match embedResult with
  | none => (.error, s1)
  | some emb =>
    let hits := dedupHits s1 uid emb
    let s2 := bumpState s1 (hits.map (fun r => r.entry.id)) now
    match hits with
    | r :: _ => (.duplicate r.entry.id, s2)
    | [] =>
      let ins := storeMemory s2 now uid content emb importance mtype
      (.created ins.1, ins.2)

/-- forgetMemories in database.ts: with a query, DELETE the user's rows whose
content matches ILIKE the query surrounded by percent signs; without a query,
DELETE all the user's rows.  Returns the number of deleted rows. -/
def forgetMemories (s : State) (uid : String) (query : Option String) : Nat × State :=
  match query with
  | some q =>
    let cond := fun e => e.user_id == uid && ilikeContains q e.content
    (s.entries.countP cond, { s with entries := s.entries.filter (fun e => !(cond e)) })
  | none =>
    let cond := fun e : Entry => e.user_id == uid
    (s.entries.countP cond, { s with entries := s.entries.filter (fun e => !(cond e)) })

/-- Outcome of the memory_forget tool. -/
inductive ForgetOutcome where
  | deletedAll (count : Nat)
  | deleted (count : Nat)
  | missingParam
deriving DecidableEq

/-- The memory_forget tool handler in index.ts: the forget_all flag (when
truthy) deletes everything; otherwise a truthy (present and non-empty) query
deletes the matching rows; otherwise the handler reports a missing parameter
and touches nothing. -/
def memory_forget (s : State) (uid : String) (query : Option String)
    (forget_all : Option Bool) : ForgetOutcome × State :=
  if forget_all.getD false then
    let r := forgetMemories s uid none
    (.deletedAll r.1, r.2)
  else
    match query with
    | some q =>
      if q ≠ "" then
        let r := forgetMemories s uid (some q)
        (.deleted r.1, r.2)
      else (.missingParam, s)
    | none => (.missingParam, s)

/-- Reference time of an entry for decay eligibility: lastAccessedAt, or
createdAt when the entry was never accessed. -/
def lastRef (e : Entry) : Nat :=
  if e.access_count = 0 then e.created_at else e.last_accessed_at

/-- Modelled from the spec: decayMemories is imported from the database module
by index.ts but its implementation is not among the provided sources.  Per the
specification (§4.6) it scans all entries whose reference time is older than
ageThresholdDays, multiplies importance by decayFactor clamped to not drop
below importanceFloor, and deletes nothing.  Time is in abstract day units. -/
def decayMemories (s : State) (now ageThresholdDays : Nat)
    (decayFactor importanceFloor : ℚ) : State :=
  { s with entries := s.entries.map (fun e =>
      if lastRef e + ageThresholdDays < now then
        { e with importance := max importanceFloor (e.importance * decayFactor),
                 updated_at := now }
      else e) }

/-- Parameters of one memory_store call (the owner is fixed separately). -/
structure StoreCall where
  now : Nat
  content : String
  embedResult : Option (List ℚ)
  importance : ℚ
  memory_type : String
deriving DecidableEq

/-- A sequentially executed sequence of memory_store calls for one owner. -/
def runStores (s : State) (uid : String) (calls : List StoreCall) : State :=
  calls.foldl
    (fun st c => (memory_store st c.now uid c.content c.embedResult c.importance c.memory_type).2)
    s

/-! Concrete states used to instantiate the theorems below. -/

/-- Entry constructor for concrete test states (updated_at equal to created_at). -/
def exEntry (i : Nat) (uid content : String) (emb : List ℚ) (imp : ℚ)
    (ac la ca : Nat) : Entry :=
  { id := i, user_id := uid, content := content, embedding := emb, importance := imp,
    memory_type := "FACT", metadata := [], access_count := ac,
    last_accessed_at := la, created_at := ca, updated_at := ca }

/-- The empty database. -/
def sEmpty : State := ⟨[], 0⟩

/-- A full partition: MAX_MEMORIES_PER_USER identical-shaped entries of one owner. -/
def bigEntry (i : Nat) : Entry := exEntry i "u" "fact" [1] (1 / 2) 0 0 0

/-- State holding exactly MAX_MEMORIES_PER_USER entries for owner u. -/
def bigState : State := ⟨(List.range MAX_MEMORIES_PER_USER).map bigEntry, MAX_MEMORIES_PER_USER⟩

/-- One entry near-identical (similarity 1) to the vector stored below. -/
def e2a : Entry := exEntry 1 "u" "likes tea" [1] (1 / 2) 0 0 0

/-- State for the duplicate-store counterexample. -/
def s2 : State := ⟨[e2a], 2⟩

/-- The entry e2a after the access bump performed by the duplicate check. -/
def e2aB : Entry := exEntry 1 "u" "likes tea" [1] (1 / 2) 1 8 0

/-- Entry reachable only through the lexical fallback (similarity 0 to the query). -/
def e3a : Entry := exEntry 1 "u" "tea time" [0] (1 / 2) 4 0 0

/-- State for the fallback access-accounting counterexample. -/
def s3 : State := ⟨[e3a], 2⟩

/-- Entry returned by the vector ranker (similarity 1 to the query). -/
def e3w : Entry := exEntry 1 "u" "tea time" [1] (1 / 2) 4 0 0

/-- State for the vector access-accounting witness. -/
def s3w : State := ⟨[e3w], 2⟩

/-- The entry e3w after the access bump performed by the search. -/
def e3wB : Entry := exEntry 1 "u" "tea time" [1] (1 / 2) 5 9 0

/-- The vector hit of the over-limit merge counterexample. -/
def e4a : Entry := exEntry 1 "u" "coffee cup" [1] (1 / 2) 0 0 0

/-- The fallback hit of the over-limit merge counterexample. -/
def e4b : Entry := exEntry 2 "u" "tea time" [0] (9 / 10) 0 0 0

/-- State for the over-limit merge counterexample. -/
def s4 : State := ⟨[e4a, e4b], 3⟩

/-- The older of two entries tied on importance and access count. -/
def e5a : Entry := exEntry 1 "u" "alpha" [1] (1 / 2) 0 0 0

/-- The newer of two entries tied on importance and access count. -/
def e5b : Entry := exEntry 2 "u" "beta" [1] (1 / 2) 0 0 5

/-- State with two eviction-tied entries. -/
def s5 : State := ⟨[e5a, e5b], 3⟩

/-- Entry stale enough to decay (never accessed, created at time 0). -/
def e7a : Entry := exEntry 1 "u" "old fact" [1] (2 / 10) 0 0 0

/-- Entry accessed recently (not eligible for decay at time 100). -/
def e7b : Entry := exEntry 2 "u" "new fact" [1] (2 / 10) 3 99 98

/-- State for the decay theorem witness. -/
def s7 : State := ⟨[e7a, e7b], 3⟩

/-- Entry whose content does not contain the wildcard query as a substring. -/
def e8a : Entry := exEntry 1 "u" "abc" [1] (1 / 2) 0 0 0

/-- State for the ILIKE wildcard counterexample. -/
def s8 : State := ⟨[e8a], 2⟩

/-- Entry of owner u containing the witness query. -/
def e8w1 : Entry := exEntry 1 "u" "likes Tea" [1] (1 / 2) 0 0 0

/-- Entry of owner u not containing the witness query. -/
def e8w2 : Entry := exEntry 2 "u" "drinks coffee" [1] (1 / 2) 0 0 0

/-- Entry of another owner containing the witness query. -/
def e8w3 : Entry := exEntry 3 "v" "tea party" [1] (1 / 2) 0 0 0

/-- State for the forget witness. -/
def s8w : State := ⟨[e8w1, e8w2, e8w3], 4⟩

/-- State with one entry, used for the threshold-monotonicity witness. -/
def s9 : State := ⟨[exEntry 1 "u" "fact" [1] (1 / 2) 0 0 0], 2⟩

/-- A store call whose embedding succeeds, for the capacity witness. -/
def c6call : StoreCall :=
  { now := 0, content := "hello", embedResult := some [1], importance := 7 / 10,
    memory_type := "FACT" }

/-! General lemmas about the embedded operations. -/

/-- The number of rows the vector SELECT returns is the limit capped by the
number of rows meeting the threshold. -/
theorem length_searchSimilarRows (s : State) (uid : String) (qv : List ℚ) (lim : Nat) (thr : ℚ) :
    (searchSimilarRows s uid qv lim thr).length =
      min lim
        (s.entries.filter (fun e =>
          e.user_id == uid && decide (thr ≤ cosineSimilarity qv e.embedding))).length := by
  unfold searchSimilarRows
  rw [List.length_map, List.length_take,
    (List.perm_insertionSort (simOrd qv) _).length_eq]

/-- The vector SELECT never returns more rows than its limit. -/
theorem length_searchSimilarRows_le (s : State) (uid : String) (qv : List ℚ)
    (lim : Nat) (thr : ℚ) : (searchSimilarRows s uid qv lim thr).length ≤ lim := by
  unfold searchSimilarRows
  rw [List.length_map]
  exact List.length_take_le _ _

/-! Claim C10. -/

/-- C10: calling the forget tool with neither a query nor the forget_all flag
deletes nothing: it returns the missing-parameter outcome and leaves the state
(hence every stored entry of every owner) unchanged. -/
theorem forget_missing_params_noop (s : State) (uid : String) :
    memory_forget s uid none none = (.missingParam, s) := rfl

/-! Claim C9. -/

/-- C9: for a fixed owner, query vector, limit and store state, the number of
vector-ranked rows returned by search is antitone in the threshold: raising
the threshold never increases the count, lowering it never decreases it. -/
theorem search_threshold_antitone (s : State) (uid : String) (qv : List ℚ) (lim : Nat)
    (t1 t2 : ℚ) (h : t1 ≤ t2) :
    (searchSimilarRows s uid qv lim t2).length ≤ (searchSimilarRows s uid qv lim t1).length := by
  rw [length_searchSimilarRows, length_searchSimilarRows]
  refine min_le_min (le_refl lim) ?_
  rw [← List.countP_eq_length_filter, ← List.countP_eq_length_filter]
  apply List.countP_mono_left
  intro e _ hp
  simp only [Bool.and_eq_true, decide_eq_true_eq] at hp ⊢
  exact ⟨hp.1, le_trans h hp.2⟩

/-- Witness for C9 at a concrete state and thresholds 0 and 1. -/
theorem search_threshold_antitone_witness :
    ((0 : ℚ) ≤ 1) ∧
      (searchSimilarRows s9 "u" [1] 5 1).length ≤ (searchSimilarRows s9 "u" [1] 5 0).length :=
  ⟨by decide, search_threshold_antitone s9 "u" [1] 5 0 1 (by decide)⟩

/-! Claim C5. -/

/-- C5 counterexample: the eviction query orders only by (importance ASC,
access_count ASC); with two entries tied on both columns the SQL may delete
the newer one, whereas the claim prescribes deleting the oldest-created one.
Batch [e5b] is an allowed eviction, yet the specification's tie-break selects
[e5a], a different batch. -/
theorem evict_tie_not_oldest :
    evictAllowedDel s5 "u" 1 [e5b] ∧
      specEvictOldestFirst s5 "u" 1 = [e5a] ∧
      e5b.created_at > e5a.created_at ∧ ([e5b] : List Entry) ≠ [e5a] :=
  ⟨⟨[e5b, e5a], by decide, by decide, rfl⟩, by decide, by decide, by decide⟩

/-- C5 (amended): any allowed eviction batch for owner and k removes exactly
min k (count owner) entries, and every removed entry is below-or-equal every
surviving entry of the owner in the (importance, accessCount) value order; the
tie order (in particular among equal createdAt candidates) is arbitrary. -/
theorem evict_removes_lowest_value (s : State) (uid : String) (k : Nat) (del : List Entry)
    (h : evictAllowedDel s uid k del) :
    del.length = min k (countOwned s uid) ∧
      ∃ rest, (ownedEntries s uid).Perm (del ++ rest) ∧
        ∀ e ∈ del, ∀ f ∈ rest, keyLE e f := by
  obtain ⟨l, hperm, hsort, hdel⟩ := h
  subst hdel
  constructor
  · rw [List.length_take, hperm.length_eq]
    rfl
  · refine ⟨l.drop k, ?_, ?_⟩
    · have h2 := hperm.symm
      rw [← List.take_append_drop k l] at h2
      exact h2
    · intro e he f hf
      have hp : List.Pairwise keyLE (l.take k ++ l.drop k) := by
        rw [List.take_append_drop]
        exact hsort
      exact (List.pairwise_append.mp hp).2.2 e he f hf

/-- Witness for C5 (amended) at a concrete allowed eviction. -/
theorem evict_removes_lowest_value_witness :
    evictAllowedDel s5 "u" 1 [e5b] ∧
      ([e5b] : List Entry).length = min 1 (countOwned s5 "u") ∧
      ∃ rest, (ownedEntries s5 "u").Perm ([e5b] ++ rest) ∧
        ∀ e ∈ ([e5b] : List Entry), ∀ f ∈ rest, keyLE e f :=
  ⟨⟨[e5b, e5a], by decide, by decide, rfl⟩,
    evict_removes_lowest_value s5 "u" 1 [e5b] ⟨[e5b, e5a], by decide, by decide, rfl⟩⟩

/-! Claim C7. -/

/-- C7: decay sets, for every entry whose reference time (lastAccessedAt, or
createdAt when never accessed) is older than the age threshold, the importance
to max floor (importance times factor); it leaves ineligible entries entirely
unchanged and deletes no entry (the id sequence is preserved). -/
theorem decay_monotone_floored (s : State) (now th : Nat) (f fl : ℚ) (e : Entry)
    (he : e ∈ s.entries) :
    ((decayMemories s now th f fl).entries.map (fun x => x.id) =
        s.entries.map (fun x => x.id)) ∧
      ∃ e2 ∈ (decayMemories s now th f fl).entries, e2.id = e.id ∧
        (lastRef e + th < now → e2.importance = max fl (e.importance * f)) ∧
        (¬ lastRef e + th < now → e2 = e) := by
  have hrw : (decayMemories s now th f fl).entries =
      s.entries.map (fun a =>
        if lastRef a + th < now then
          { a with importance := max fl (a.importance * f), updated_at := now }
        else a) := rfl
  constructor
  · rw [hrw, List.map_map]
    apply List.map_congr_left
    intro a _
    by_cases h : lastRef a + th < now <;> simp [h]
  · refine ⟨_, List.mem_map_of_mem _ he, ?_, ?_, ?_⟩
    · by_cases h : lastRef e + th < now <;> simp [h]
    · intro h
      simp [h]
    · intro h
      simp [h]

/-! Lemmas on the LIKE matcher, leading to claim C8. -/

/-- Unfolding of the matcher at a leading percent sign: some prefix of the
text is consumed and the rest of the pattern must match the remaining suffix. -/
theorem likeMatch_percent (ps cs : List Char) :
    likeMatch ('%' :: ps) cs =
      (List.range (cs.length + 1)).any (fun i => likeMatch ps (cs.drop i)) := by
  simp [likeMatch]

/-- Unfolding of the matcher at a literal (non-percent) pattern character. -/
theorem likeMatch_lit (a : Char) (ps : List Char) (ha : a ≠ '%') (c : Char) (cs : List Char) :
    likeMatch (a :: ps) (c :: cs) =
      ((a == '_' || lowerChar a == lowerChar c) && likeMatch ps cs) := by
  simp [likeMatch, ha]

/-- A literal pattern character never matches the empty text. -/
theorem likeMatch_lit_nil (a : Char) (ps : List Char) (ha : a ≠ '%') :
    likeMatch (a :: ps) [] = false := by
  simp [likeMatch, ha]

/-- A wildcard-free pattern followed by a percent sign matches exactly the
texts whose case folding starts with the pattern's case folding. -/
theorem likeMatch_lit_pattern :
    ∀ q : List Char, (∀ c ∈ q, c ≠ '%' ∧ c ≠ '_') →
      ∀ cs : List Char,
        (likeMatch (q ++ ['%']) cs = true ↔ (q.map lowerChar) <+: (cs.map lowerChar)) := by
  intro q
  induction q with
  | nil =>
    intro _ cs
    constructor
    · intro _
      exact ⟨cs.map lowerChar, by simp⟩
    · intro _
      rw [List.nil_append, likeMatch_percent, List.any_eq_true]
      refine ⟨cs.length, ?_, ?_⟩
      · simp [List.mem_range]
      · simp [likeMatch, List.drop_length]
  | cons a q ih =>
    intro hq cs
    have ha := hq a (by simp)
    have hq2 : ∀ c ∈ q, c ≠ '%' ∧ c ≠ '_' := fun c hc => hq c (List.mem_cons_of_mem a hc)
    cases cs with
    | nil =>
      rw [List.cons_append, likeMatch_lit_nil _ _ ha.1]
      simp
    | cons c cs =>
      rw [List.cons_append, likeMatch_lit _ _ ha.1]
      simp only [Bool.and_eq_true, Bool.or_eq_true, beq_iff_eq, List.map_cons,
        List.cons_prefix_cons]
      constructor
      · rintro ⟨h1 | h1, h2⟩
        · exact absurd h1 ha.2
        · exact ⟨h1, (ih hq2 cs).mp h2⟩
      · rintro ⟨h1, h2⟩
        exact ⟨Or.inr h1, (ih hq2 cs).mpr h2⟩

/-- For wildcard-free queries the ILIKE filter of searchText and
forgetMemories is exactly case-insensitive substring containment. -/
theorem ilikeContains_eq_containsCI (q : String) (hq : ∀ c ∈ q.data, c ≠ '%' ∧ c ≠ '_')
    (content : String) :
    (ilikeContains q content = true) ↔ containsCI content.data q.data := by
  unfold ilikeContains containsCI
  rw [likeMatch_percent, List.any_eq_true]
  constructor
  · rintro ⟨i, _, hm⟩
    rw [likeMatch_lit_pattern q.data hq, List.map_drop] at hm
    exact List.infix_iff_prefix_suffix.mpr ⟨_, hm, List.drop_suffix i _⟩
  · intro h
    obtain ⟨t, hpre, hsuf⟩ := List.infix_iff_prefix_suffix.mp h
    have hd := List.suffix_iff_eq_drop.mp hsuf
    refine ⟨(content.data.map lowerChar).length - t.length, ?_, ?_⟩
    · rw [List.mem_range, List.length_map]
      omega
    · rw [likeMatch_lit_pattern q.data hq, List.map_drop, ← hd]
      exact hpre

/-! Claim C8. -/

/-- C8 counterexample: ILIKE treats an underscore in the query as a one-character
wildcard, so forget with query a_c deletes the entry whose content is abc even
though a_c is not a substring of abc; the claim's description of the deleted
set is therefore wrong for wildcard queries. -/
theorem forget_wildcard_query :
    (forgetMemories s8 "u" (some "a_c")).1 = 1 ∧
      (forgetMemories s8 "u" (some "a_c")).2.entries = [] ∧
      ¬ containsCI e8a.content.data ("a_c".data) := by
  refine ⟨by decide, by decide, by decide⟩

/-- C8 (amended): for queries containing no ILIKE wildcard or escape character
(percent sign, underscore, backslash), forget with a query deletes exactly the
owner's entries whose content contains the query case-insensitively as a
substring and returns their exact number; forget without a query deletes
exactly all of the owner's entries and returns their exact number. -/
theorem forget_deletes_matching (s : State) (uid q : String)
    (hq : ∀ c ∈ q.data, c ≠ '%' ∧ c ≠ '_' ∧ c ≠ '\\') :
    ((forgetMemories s uid (some q)).1 =
        s.entries.countP (fun e =>
          e.user_id == uid && decide (containsCI e.content.data q.data)) ∧
      (forgetMemories s uid (some q)).2.entries =
        s.entries.filter (fun e =>
          !(e.user_id == uid && decide (containsCI e.content.data q.data)))) ∧
      (forgetMemories s uid none).1 = countOwned s uid ∧
      (forgetMemories s uid none).2.entries =
        s.entries.filter (fun e => !(e.user_id == uid)) := by
  have hq2 : ∀ c ∈ q.data, c ≠ '%' ∧ c ≠ '_' := fun c hc => ⟨(hq c hc).1, (hq c hc).2.1⟩
  have hpt : ∀ e : Entry, (e.user_id == uid && ilikeContains q e.content) =
      (e.user_id == uid && decide (containsCI e.content.data q.data)) := by
    intro e
    have hbool : ilikeContains q e.content = decide (containsCI e.content.data q.data) := by
      apply Bool.coe_iff_coe.mp
      rw [decide_eq_true_eq]
      exact ilikeContains_eq_containsCI q hq2 e.content
    rw [hbool]
  refine ⟨⟨?_, ?_⟩, ?_, rfl⟩
  · show s.entries.countP _ = _
    exact List.countP_congr (fun e _ => by rw [hpt e])
  · show s.entries.filter _ = _
    exact List.filter_congr (fun e _ => by simp only [hpt e])
  · show s.entries.countP _ = _
    rw [List.countP_eq_length_filter]
    rfl

/-- Witness for C8 (amended) at a concrete three-entry state and query tea. -/
theorem forget_deletes_matching_witness :
    (∀ c ∈ "tea".data, c ≠ '%' ∧ c ≠ '_' ∧ c ≠ '\\') ∧
      (((forgetMemories s8w "u" (some "tea")).1 =
          s8w.entries.countP (fun e =>
            e.user_id == "u" && decide (containsCI e.content.data ("tea".data))) ∧
        (forgetMemories s8w "u" (some "tea")).2.entries =
          s8w.entries.filter (fun e =>
            !(e.user_id == "u" && decide (containsCI e.content.data ("tea".data))))) ∧
        (forgetMemories s8w "u" none).1 = countOwned s8w "u" ∧
        (forgetMemories s8w "u" none).2.entries =
          s8w.entries.filter (fun e => !(e.user_id == "u"))) :=
  ⟨by decide, forget_deletes_matching s8w "u" "tea" (by decide)⟩

/-- Witness for C7 at a state with one stale and one fresh entry. -/
theorem decay_monotone_floored_witness :
    e7a ∈ s7.entries ∧
      (((decayMemories s7 100 7 (95 / 100) (1 / 10)).entries.map (fun x => x.id) =
          s7.entries.map (fun x => x.id)) ∧
        ∃ e2 ∈ (decayMemories s7 100 7 (95 / 100) (1 / 10)).entries, e2.id = e7a.id ∧
          (lastRef e7a + 7 < 100 → e2.importance = max (1 / 10) (e7a.importance * (95 / 100))) ∧
          (¬ lastRef e7a + 7 < 100 → e2 = e7a)) :=
  ⟨by decide, decay_monotone_floored s7 100 7 (95 / 100) (1 / 10) e7a (by decide)⟩

/-! Lemmas on the access-count update, eviction, capacity stage and insert. -/

/-- The access-count UPDATE with no retrieved ids is the identity. -/
theorem bumpState_nil (s : State) (now : Nat) : bumpState s [] now = s := by
  unfold bumpState
  simp

/-- The access-count UPDATE does not change the id column. -/
theorem idsMap_bumpState (s : State) (ids : List Nat) (now : Nat) :
    (bumpState s ids now).entries.map (fun e => e.id) = s.entries.map (fun e => e.id) := by
  show (s.entries.map _).map _ = _
  rw [List.map_map]
  apply List.map_congr_left
  intro a _
  by_cases hm : a.id ∈ ids <;> simp [hm]

/-- The per-owner count as a countP over the whole table. -/
theorem countOwned_eq_countP (s : State) (uid : String) :
    countOwned s uid = s.entries.countP (fun e => e.user_id == uid) := by
  unfold countOwned ownedEntries
  rw [List.countP_eq_length_filter]

/-- The access-count UPDATE does not change any per-owner count. -/
theorem countOwned_bumpState (s : State) (ids : List Nat) (now : Nat) (uid : String) :
    countOwned (bumpState s ids now) uid = countOwned s uid := by
  rw [countOwned_eq_countP, countOwned_eq_countP]
  show (s.entries.map _).countP _ = _
  rw [List.countP_map]
  apply List.countP_congr
  intro a _
  by_cases hm : a.id ∈ ids <;> simp [hm, Function.comp]

/-- The access-count UPDATE preserves well-formedness. -/
theorem WF_bumpState (s : State) (ids : List Nat) (now : Nat) (h : WF s) :
    WF (bumpState s ids now) := by
  obtain ⟨h1, h2⟩ := h
  constructor
  · rw [idsMap_bumpState]
    exact h1
  · intro e he
    obtain ⟨a, ha, hae⟩ := List.mem_map.mp he
    show e.id < s.nextId
    have : e.id = a.id := by
      rw [← hae]
      by_cases hm : a.id ∈ ids <;> simp [hm]
    rw [this]
    exact h2 a ha

/-- Eviction preserves well-formedness. -/
theorem WF_evictLowest (s : State) (uid : String) (k : Nat) (h : WF s) :
    WF (evictLowest s uid k) := by
  obtain ⟨h1, h2⟩ := h
  constructor
  · exact List.Nodup.sublist (List.Sublist.map _ (List.filter_sublist _)) h1
  · intro e he
    exact h2 e (List.mem_of_mem_filter he)

/-- Eviction removes exactly k of the owner's rows (all of them when the
owner has fewer than k). -/
theorem countOwned_evictLowest (s : State) (uid : String) (k : Nat) (hwf : WF s) :
    countOwned (evictLowest s uid k) uid = countOwned s uid - k := by
  have h1 : ownedEntries (evictLowest s uid k) uid =
      (ownedEntries s uid).filter (fun e => decide (e.id ∉ evictVictims s uid k)) := by
    show (s.entries.filter _).filter _ = (s.entries.filter _).filter _
    rw [List.filter_filter, List.filter_filter]
    exact List.filter_congr (fun e _ => Bool.and_comm _ _)
  have hOL := List.perm_insertionSort keyLE (ownedEntries s uid)
  have hids : ((ownedEntries s uid).map (fun e => e.id)).Nodup :=
    List.Nodup.sublist (List.Sublist.map _ (List.filter_sublist _)) hwf.1
  have hidsL : ((List.insertionSort keyLE (ownedEntries s uid)).map (fun e => e.id)).Nodup :=
    ((hOL.map (fun e => e.id)).symm).nodup hids
  have hLnodup : (List.insertionSort keyLE (ownedEntries s uid)).Nodup :=
    List.Nodup.of_map _ hidsL
  have hinjL := List.inj_on_of_nodup_map hidsL
  have htake : ((List.insertionSort keyLE (ownedEntries s uid)).take k).filter
      (fun e => decide (e.id ∉ evictVictims s uid k)) = [] := by
    rw [List.filter_eq_nil_iff]
    intro a ha
    simp only [decide_eq_true_eq, Decidable.not_not]
    exact List.mem_map_of_mem _ ha
  have hdrop : ((List.insertionSort keyLE (ownedEntries s uid)).drop k).filter
      (fun e => decide (e.id ∉ evictVictims s uid k)) =
      (List.insertionSort keyLE (ownedEntries s uid)).drop k := by
    rw [List.filter_eq_self]
    intro a ha
    simp only [decide_eq_true_eq]
    intro hmem
    obtain ⟨b, hb, hba⟩ := List.mem_map.mp hmem
    have hbL := List.take_subset k _ hb
    have haL := List.drop_subset k _ ha
    have : b = a := hinjL hbL haL hba
    subst this
    exact List.disjoint_take_drop hLnodup (le_refl k) hb ha
  show (ownedEntries (evictLowest s uid k) uid).length = (ownedEntries s uid).length - k
  rw [h1, (hOL.filter _).symm.length_eq]
  rw [← List.take_append_drop k (List.insertionSort keyLE (ownedEntries s uid)),
    List.filter_append]
  rw [htake, hdrop]
  rw [List.nil_append, List.length_drop, hOL.length_eq]

/-- The deterministic model of evictLowest realizes one allowed eviction
batch: its victims are the first k rows of a sorted permutation of the
owner's rows. -/
theorem evictLowest_refines (s : State) (uid : String) (k : Nat) :
    evictAllowedDel s uid k ((List.insertionSort keyLE (ownedEntries s uid)).take k) :=
  ⟨List.insertionSort keyLE (ownedEntries s uid), List.perm_insertionSort _ _,
    List.sorted_insertionSort _ _, rfl⟩

/-- The capacity stage leaves the state alone below the ceiling. -/
theorem afterCapacity_of_lt (s : State) (uid : String)
    (h : countOwned s uid < MAX_MEMORIES_PER_USER) : afterCapacity s uid = s :=
  if_neg (by omega)

/-- Count after the capacity stage. -/
theorem countOwned_afterCapacity (s : State) (uid : String) (hwf : WF s) :
    countOwned (afterCapacity s uid) uid =
      if MAX_MEMORIES_PER_USER ≤ countOwned s uid then countOwned s uid - 1
      else countOwned s uid := by
  unfold afterCapacity
  split
  · exact countOwned_evictLowest s uid 1 hwf
  · rfl

/-- The capacity stage preserves well-formedness. -/
theorem WF_afterCapacity (s : State) (uid : String) (h : WF s) : WF (afterCapacity s uid) := by
  unfold afterCapacity
  split
  · exact WF_evictLowest s uid 1 h
  · exact h

/-- Rows surviving the capacity stage were rows of the original state. -/
theorem mem_afterCapacity {s : State} {uid : String} {e : Entry}
    (h : e ∈ (afterCapacity s uid).entries) : e ∈ s.entries := by
  unfold afterCapacity at h
  split at h
  · exact List.mem_of_mem_filter h
  · exact h

/-- The capacity stage does not touch the id counter. -/
theorem nextId_afterCapacity (s : State) (uid : String) :
    (afterCapacity s uid).nextId = s.nextId := by
  unfold afterCapacity
  split <;> rfl

/-- The INSERT increments the owner's count by one. -/
theorem countOwned_storeMemory (s : State) (now : Nat) (uid content : String)
    (emb : List ℚ) (imp : ℚ) (mt : String) :
    countOwned (storeMemory s now uid content emb imp mt).2 uid = countOwned s uid + 1 := by
  rw [countOwned_eq_countP, countOwned_eq_countP]
  show (s.entries ++ [_]).countP _ = _
  rw [List.countP_append]
  simp

/-- The INSERT preserves well-formedness. -/
theorem WF_storeMemory (s : State) (now : Nat) (uid content : String)
    (emb : List ℚ) (imp : ℚ) (mt : String) (h : WF s) :
    WF (storeMemory s now uid content emb imp mt).2 := by
  obtain ⟨h1, h2⟩ := h
  constructor
  · show ((s.entries ++ [_]).map _).Nodup
    rw [List.map_append, List.nodup_append]
    refine ⟨h1, by simp, ?_⟩
    intro a ha hb
    simp only [List.map_cons, List.map_nil, List.mem_cons, List.not_mem_nil,
      or_false] at hb
    obtain ⟨e, he, hea⟩ := List.mem_map.mp ha
    have := h2 e he
    omega
  · intro e he
    show e.id < s.nextId + 1
    rcases List.mem_append.mp he with h | h
    · exact Nat.lt_succ_of_lt (h2 e h)
    · simp only [List.mem_cons, List.not_mem_nil, or_false] at h
      rw [h]
      exact Nat.lt_succ_self _

/-- Unfolding of memory_store when the embedding provider fails. -/
theorem memory_store_eq_none (s : State) (now : Nat) (uid content : String)
    (imp : ℚ) (mt : String) :
    memory_store s now uid content none imp mt = (.error, afterCapacity s uid) := rfl

/-- Unfolding of memory_store when no near-duplicate is found: the new entry
is inserted with the next SERIAL id. -/
theorem memory_store_some_nil (s : State) (now : Nat) (uid content : String)
    (emb : List ℚ) (imp : ℚ) (mt : String)
    (h : dedupHits (afterCapacity s uid) uid emb = []) :
    memory_store s now uid content (some emb) imp mt =
      (.created (afterCapacity s uid).nextId,
        (storeMemory (afterCapacity s uid) now uid content emb imp mt).2) := by
  simp only [memory_store, h, List.map_nil, bumpState_nil]
  rfl

/-- Unfolding of memory_store when the duplicate probe returns a row: the
outcome reports that row and the state receives exactly its access bump. -/
theorem memory_store_some_cons (s : State) (now : Nat) (uid content : String)
    (emb : List ℚ) (imp : ℚ) (mt : String) (r : SearchResult) (rest : List SearchResult)
    (h : dedupHits (afterCapacity s uid) uid emb = r :: rest) :
    memory_store s now uid content (some emb) imp mt =
      (.duplicate r.entry.id,
        bumpState (afterCapacity s uid) ((r :: rest).map (fun x => x.entry.id)) now) := by
  simp only [memory_store, h]

/-- The duplicate probe uses LIMIT 1, so its tail is empty. -/
theorem dedupHits_tail (s : State) (uid : String) (emb : List ℚ)
    (r : SearchResult) (rest : List SearchResult)
    (h : dedupHits s uid emb = r :: rest) : rest = [] := by
  have hlen := length_searchSimilarRows_le s uid emb 1 dedupThreshold
  have : (dedupHits s uid emb).length ≤ 1 := hlen
  rw [h, List.length_cons] at this
  exact List.eq_nil_of_length_eq_zero (by omega)

/-- One memory_store call keeps the owner's count within the ceiling and
preserves well-formedness. -/
theorem memory_store_step (s : State) (now : Nat) (uid content : String)
    (er : Option (List ℚ)) (imp : ℚ) (mt : String) (hwf : WF s)
    (hle : countOwned s uid ≤ MAX_MEMORIES_PER_USER) :
    countOwned (memory_store s now uid content er imp mt).2 uid ≤ MAX_MEMORIES_PER_USER ∧
      WF (memory_store s now uid content er imp mt).2 := by
  have hM : MAX_MEMORIES_PER_USER = 1000 := rfl
  have hacap := countOwned_afterCapacity s uid hwf
  have hwf1 := WF_afterCapacity s uid hwf
  cases er with
  | none =>
    rw [memory_store_eq_none]
    constructor
    · show countOwned (afterCapacity s uid) uid ≤ _
      rw [hacap]
      split <;> omega
    · exact hwf1
  | some emb =>
    rcases hhits : dedupHits (afterCapacity s uid) uid emb with _ | ⟨r, rest⟩
    · rw [memory_store_some_nil s now uid content emb imp mt hhits]
      constructor
      · show countOwned (storeMemory (afterCapacity s uid) now uid content emb imp mt).2 uid ≤ _
        rw [countOwned_storeMemory, hacap]
        split <;> omega
      · exact WF_storeMemory _ _ _ _ _ _ _ hwf1
    · rw [memory_store_some_cons s now uid content emb imp mt r rest hhits]
      constructor
      · show countOwned (bumpState (afterCapacity s uid) _ now) uid ≤ _
        rw [countOwned_bumpState, hacap]
        split <;> omega
      · exact WF_bumpState _ _ _ hwf1

/-- Helper for the capacity invariant: the per-call bound propagated over any
sequence of store calls for one owner. -/
theorem runStores_le (uid : String) (calls : List StoreCall) :
    ∀ s : State, WF s → countOwned s uid ≤ MAX_MEMORIES_PER_USER →
      countOwned (runStores s uid calls) uid ≤ MAX_MEMORIES_PER_USER := by
  induction calls with
  | nil => intro s _ hle; exact hle
  | cons c cs ih =>
    intro s hwf hle
    have step := memory_store_step s c.now uid c.content c.embedResult c.importance
      c.memory_type hwf hle
    exact ih _ step.2 step.1

/-! Claim C6. -/

/-- C6: starting from a state where the owner's count is within the ceiling,
any sequentially executed sequence of store calls for that owner keeps the
count within the ceiling; moreover whenever a store call finds the owner at or
above the ceiling, its capacity stage evicts exactly one entry before any
insert. -/
theorem store_capacity_bound (s : State) (uid : String) (calls : List StoreCall)
    (hwf : WF s) (hle : countOwned s uid ≤ MAX_MEMORIES_PER_USER) :
    countOwned (runStores s uid calls) uid ≤ MAX_MEMORIES_PER_USER ∧
      ∀ t : State, WF t → MAX_MEMORIES_PER_USER ≤ countOwned t uid →
        countOwned (afterCapacity t uid) uid = countOwned t uid - 1 := by
  constructor
  · exact runStores_le uid calls s hwf hle
  · intro t hwt hge
    rw [countOwned_afterCapacity t uid hwt, if_pos hge]

/-- Witness for C6 at the empty state and a single successful store call. -/
theorem store_capacity_bound_witness :
    WF sEmpty ∧ countOwned sEmpty "u" ≤ MAX_MEMORIES_PER_USER ∧
      (countOwned (runStores sEmpty "u" [c6call]) "u" ≤ MAX_MEMORIES_PER_USER ∧
        ∀ t : State, WF t → MAX_MEMORIES_PER_USER ≤ countOwned t "u" →
          countOwned (afterCapacity t "u") "u" = countOwned t "u" - 1) :=
  ⟨by decide, by decide, store_capacity_bound sEmpty "u" [c6call] (by decide) (by decide)⟩

/-! Claim C1. -/

/-- The full partition is well-formed. -/
theorem WF_bigState : WF bigState := by
  constructor
  · show (((List.range MAX_MEMORIES_PER_USER).map bigEntry).map (fun e => e.id)).Nodup
    rw [List.map_map]
    have h : ((fun e : Entry => e.id) ∘ bigEntry) = fun i => i := rfl
    rw [h, List.map_id']
    exact List.nodup_range _
  · intro e he
    obtain ⟨i, hi, rfl⟩ := List.mem_map.mp he
    exact List.mem_range.mp hi

/-- The full partition holds exactly the ceiling number of entries of owner u. -/
theorem countOwned_bigState : countOwned bigState "u" = MAX_MEMORIES_PER_USER := by
  rw [countOwned_eq_countP]
  show ((List.range MAX_MEMORIES_PER_USER).map bigEntry).countP _ = _
  rw [List.countP_map]
  have h : ((fun e : Entry => e.user_id == "u") ∘ bigEntry) = fun _ => true := by
    funext i
    simp [bigEntry, exEntry, Function.comp]
  rw [h, List.countP_true]
  exact List.length_range _

/-- C1 counterexample: the capacity stage runs before the embedding and the
duplicate check.  At a full partition, a store call whose embedding fails
returns the error outcome, yet one entry has already been evicted: the owner's
count drops from the ceiling to one below it, contradicting the claim that a
non-inserting store call evicts nothing. -/
theorem store_failure_after_eviction :
    (memory_store bigState 3 "u" "new fact" none (7 / 10) "FACT").1 = .error ∧
      countOwned bigState "u" = MAX_MEMORIES_PER_USER ∧
      countOwned (memory_store bigState 3 "u" "new fact" none (7 / 10) "FACT").2 "u" =
        MAX_MEMORIES_PER_USER - 1 := by
  refine ⟨rfl, countOwned_bigState, ?_⟩
  rw [memory_store_eq_none]
  show countOwned (afterCapacity bigState "u") "u" = _
  rw [countOwned_afterCapacity _ _ WF_bigState, countOwned_bigState,
    if_pos (le_refl _)]

/-- C1 (amended): the capacity stage precedes the deduplication gate, so the
no-eviction guarantee holds only below the ceiling: when the owner's count is
below MAX_MEMORIES_PER_USER, a store call that does not insert (Duplicate
outcome or embedding failure) deletes no entry — the id column and the owner's
count are unchanged (the duplicate check may still bump the matched entry's
access statistics).  At or above the ceiling an eviction may precede the
failure, as the counterexample shows. -/
theorem store_below_capacity_no_eviction (s : State) (now : Nat) (uid content : String)
    (er : Option (List ℚ)) (imp : ℚ) (mt : String)
    (hlt : countOwned s uid < MAX_MEMORIES_PER_USER)
    (hnc : ∀ i, (memory_store s now uid content er imp mt).1 ≠ .created i) :
    (memory_store s now uid content er imp mt).2.entries.map (fun e => e.id) =
        s.entries.map (fun e => e.id) ∧
      countOwned (memory_store s now uid content er imp mt).2 uid = countOwned s uid := by
  have hcap : afterCapacity s uid = s := afterCapacity_of_lt s uid hlt
  cases er with
  | none =>
    rw [memory_store_eq_none]
    rw [show ((StoreOutcome.error, afterCapacity s uid)).2 = afterCapacity s uid from rfl,
      hcap]
    exact ⟨rfl, rfl⟩
  | some emb =>
    rcases hhits : dedupHits (afterCapacity s uid) uid emb with _ | ⟨r, rest⟩
    · exfalso
      apply hnc (afterCapacity s uid).nextId
      rw [memory_store_some_nil s now uid content emb imp mt hhits]
    · rw [memory_store_some_cons s now uid content emb imp mt r rest hhits]
      constructor
      · show (bumpState (afterCapacity s uid) _ now).entries.map _ = _
        rw [idsMap_bumpState, hcap]
      · show countOwned (bumpState (afterCapacity s uid) _ now) uid = _
        rw [countOwned_bumpState, hcap]

/-- Witness for C1 (amended) at the empty state and a failing embedding. -/
theorem store_below_capacity_no_eviction_witness :
    countOwned sEmpty "u" < MAX_MEMORIES_PER_USER ∧
      (∀ i, (memory_store sEmpty 0 "u" "x" none (7 / 10) "FACT").1 ≠ .created i) ∧
      ((memory_store sEmpty 0 "u" "x" none (7 / 10) "FACT").2.entries.map (fun e => e.id) =
          sEmpty.entries.map (fun e => e.id) ∧
        countOwned (memory_store sEmpty 0 "u" "x" none (7 / 10) "FACT").2 "u" =
          countOwned sEmpty "u") := by
  have hnc : ∀ i, (memory_store sEmpty 0 "u" "x" none (7 / 10) "FACT").1 ≠ .created i := by
    intro i h
    rw [memory_store_eq_none] at h
    exact StoreOutcome.noConfusion h
  exact ⟨by decide, hnc,
    store_below_capacity_no_eviction sEmpty 0 "u" "x" none (7 / 10) "FACT" (by decide) hnc⟩

/-! Claim C2. -/

/-- C2 counterexample: memory_store is a write operation, yet its duplicate
check runs searchSimilar, which bumps the matched entry: the store call
returns the Duplicate outcome and the existing entry's accessCount rises from
0 to 1 (and its lastAccessedAt is set), contradicting the claim that writes
never change these fields and that the ranker performs no mutation. -/
theorem store_duplicate_bumps_access :
    (memory_store s2 8 "u" "likes tea" (some [1]) (7 / 10) "FACT").1 = .duplicate 1 ∧
      e2a.access_count = 0 ∧ e2a.last_accessed_at = 0 ∧
      (memory_store s2 8 "u" "likes tea" (some [1]) (7 / 10) "FACT").2.entries =
        [e2aB] ∧
      e2aB.access_count = 1 ∧ e2aB.last_accessed_at = 8 := by
  refine ⟨by decide, by decide, by decide, by decide, by decide, by decide⟩

/-- C2 (amended): the access fields of a stored entry are changed by a store
call exactly when the entry is the one reported by the Duplicate outcome (the
dedup probe's searchSimilar bumps it); every other surviving entry keeps its
accessCount and lastAccessedAt. -/
theorem store_access_fields_update (s : State) (now : Nat) (uid content : String)
    (er : Option (List ℚ)) (imp : ℚ) (mt : String) (hwf : WF s)
    (e : Entry) (he : e ∈ s.entries) (e2 : Entry)
    (he2 : e2 ∈ (memory_store s now uid content er imp mt).2.entries)
    (hid : e2.id = e.id) :
    (e2.access_count = e.access_count ∧ e2.last_accessed_at = e.last_accessed_at) ∨
      ((memory_store s now uid content er imp mt).1 = .duplicate e.id ∧
        e2.access_count = e.access_count + 1 ∧ e2.last_accessed_at = now) := by
  have hinj := List.inj_on_of_nodup_map hwf.1
  cases er with
  | none =>
    left
    rw [memory_store_eq_none] at he2
    have h3 : e2 ∈ s.entries := mem_afterCapacity he2
    have h4 : e2 = e := hinj h3 he hid
    rw [h4]
    exact ⟨rfl, rfl⟩
  | some emb =>
    rcases hhits : dedupHits (afterCapacity s uid) uid emb with _ | ⟨r, rest⟩
    · left
      rw [memory_store_some_nil s now uid content emb imp mt hhits] at he2
      have he2b : e2 ∈ (afterCapacity s uid).entries ++
          [{ id := (afterCapacity s uid).nextId, user_id := uid, content := content,
             embedding := emb, importance := max 0 (min 1 imp), memory_type := mt,
             metadata := [], access_count := 0, last_accessed_at := now,
             created_at := now, updated_at := now }] := he2
      rcases List.mem_append.mp he2b with h | h
      · have h3 : e2 ∈ s.entries := mem_afterCapacity h
        have h4 : e2 = e := hinj h3 he hid
        rw [h4]
        exact ⟨rfl, rfl⟩
      · exfalso
        simp only [List.mem_cons, List.not_mem_nil, or_false] at h
        have h5 : e2.id = (afterCapacity s uid).nextId := by rw [h]
        have h6 := hwf.2 e he
        rw [nextId_afterCapacity] at h5
        omega
    · have hrest : rest = [] := dedupHits_tail _ _ _ _ _ hhits
      subst hrest
      rw [memory_store_some_cons s now uid content emb imp mt r [] hhits] at he2 ⊢
      obtain ⟨a, ha, hae⟩ := List.mem_map.mp he2
      simp only [List.map_cons, List.map_nil] at hae
      have haS : a ∈ s.entries := mem_afterCapacity ha
      by_cases hm : a.id ∈ ([r.entry.id] : List Nat)
      · rw [if_pos hm] at hae
        have haid : a.id = e.id := by rw [← hid, ← hae]
        have haE : a = e := hinj haS he haid
        subst haE
        right
        have hr : r.entry.id = a.id := by
          simp only [List.mem_cons, List.not_mem_nil, or_false] at hm
          exact hm.symm
        refine ⟨?_, ?_, ?_⟩
        · show StoreOutcome.duplicate r.entry.id = StoreOutcome.duplicate a.id
          rw [hr]
        · rw [← hae]
        · rw [← hae]
      · rw [if_neg hm] at hae
        left
        have haE : a = e := hinj haS he (by rw [← hid, ← hae])
        rw [← hae, haE]
        exact ⟨rfl, rfl⟩

/-- Witness for C2 (amended) at the duplicate-store state. -/
theorem store_access_fields_update_witness :
    WF s2 ∧ e2a ∈ s2.entries ∧
      e2aB ∈ (memory_store s2 8 "u" "likes tea" (some [1]) (7 / 10) "FACT").2.entries ∧
      e2aB.id = e2a.id ∧
      ((e2aB.access_count = e2a.access_count ∧
          e2aB.last_accessed_at = e2a.last_accessed_at) ∨
        ((memory_store s2 8 "u" "likes tea" (some [1]) (7 / 10) "FACT").1 =
            .duplicate e2a.id ∧
          e2aB.access_count = e2a.access_count + 1 ∧ e2aB.last_accessed_at = 8)) :=
  ⟨by decide, by decide, by decide, by decide,
    store_access_fields_update s2 8 "u" "likes tea" (some [1]) (7 / 10) "FACT"
      (by decide) e2a (by decide) e2aB (by decide) (by decide)⟩

/-! Claim C3. -/

/-- C3 counterexample: a search whose only result comes from the lexical
fallback returns that entry, yet the stored entry's accessCount is not
incremented (it stays 4) and its lastAccessedAt is not updated — only
vector-ranked rows receive the access bump. -/
theorem fallback_result_not_bumped :
    (memory_search s3 9 "u" "tea" (some [1]) 10 (1 / 2)).1 =
        .ok [{ entry := e3a, similarity := 1 / 2 }] ∧
      (memory_search s3 9 "u" "tea" (some [1]) 10 (1 / 2)).2.entries = [e3a] ∧
      e3a.access_count = 4 ∧ e3a.last_accessed_at = 0 := by
  refine ⟨by decide, by decide, by decide, by decide⟩

/-- C3 (amended): in a search, an entry's accessCount is incremented by
exactly 1 and its lastAccessedAt set to now exactly when the entry is among
the vector-ranked rows; entries contributed only by the lexical fallback (and
all other entries) are left entirely unchanged. -/
theorem search_access_update (s : State) (now : Nat) (uid q : String) (qv : List ℚ)
    (lim : Nat) (thr : ℚ) (hwf : WF s) (e : Entry) (he : e ∈ s.entries) (e2 : Entry)
    (he2 : e2 ∈ (memory_search s now uid q (some qv) lim thr).2.entries)
    (hid : e2.id = e.id) :
    (e.id ∈ (searchSimilarRows s uid qv lim thr).map (fun r => r.entry.id) →
      e2.access_count = e.access_count + 1 ∧ e2.last_accessed_at = now) ∧
    (e.id ∉ (searchSimilarRows s uid qv lim thr).map (fun r => r.entry.id) → e2 = e) := by
  have hinj := List.inj_on_of_nodup_map hwf.1
  have h2 : (memory_search s now uid q (some qv) lim thr).2 =
      bumpState s ((searchSimilarRows s uid qv lim thr).map (fun r => r.entry.id)) now := rfl
  rw [h2] at he2
  obtain ⟨a, ha, hae⟩ := List.mem_map.mp he2
  by_cases hm : a.id ∈ (searchSimilarRows s uid qv lim thr).map (fun r => r.entry.id)
  · rw [if_pos hm] at hae
    have haid : a.id = e.id := by rw [← hid, ← hae]
    have haE : a = e := hinj ha he haid
    subst haE
    constructor
    · intro _
      rw [← hae]
      exact ⟨rfl, rfl⟩
    · intro hne
      exact absurd hm hne
  · rw [if_neg hm] at hae
    have haE : a = e := hinj ha he (by rw [← hid, ← hae])
    subst haE
    constructor
    · intro hmm
      exact absurd hmm hm
    · intro _
      rw [← hae]

/-- Witness for C3 (amended) at a state whose single entry is vector-ranked. -/
theorem search_access_update_witness :
    WF s3w ∧ e3w ∈ s3w.entries ∧
      e3wB ∈ (memory_search s3w 9 "u" "tea" (some [1]) 10 (1 / 2)).2.entries ∧
      e3wB.id = e3w.id ∧
      ((e3w.id ∈ (searchSimilarRows s3w "u" [1] 10 (1 / 2)).map (fun r => r.entry.id) →
          e3wB.access_count = e3w.access_count + 1 ∧ e3wB.last_accessed_at = 9) ∧
        (e3w.id ∉ (searchSimilarRows s3w "u" [1] 10 (1 / 2)).map (fun r => r.entry.id) →
          e3wB = e3w)) :=
  ⟨by decide, by decide, by decide, by decide,
    search_access_update s3w 9 "u" "tea" [1] 10 (1 / 2) (by decide) e3w (by decide)
      e3wB (by decide) (by decide)⟩

/-! Claim C4. -/

/-- The lexical fallback never returns more rows than its limit. -/
theorem length_searchText_le (s : State) (uid q : String) (lim : Nat) :
    (searchText s uid q lim).length ≤ lim := by
  unfold searchText
  exact List.length_take_le _ _

/-- The merge loop appends at most one row per fallback row. -/
theorem length_mergeFallback_le (trs : List Entry) :
    ∀ vres : List SearchResult,
      (mergeFallback vres trs).length ≤ vres.length + trs.length := by
  induction trs with
  | nil =>
    intro vres
    simp [mergeFallback]
  | cons t ts ih =>
    intro vres
    rw [show mergeFallback vres (t :: ts) =
        mergeFallback
          (if vres.any (fun r => r.entry.id == t.id) then vres
           else vres ++ [{ entry := t, similarity := 1 / 2 }]) ts from rfl]
    refine le_trans (ih _) ?_
    split
    · simp only [List.length_cons]
      omega
    · simp only [List.length_append, List.length_cons, List.length_nil]
      omega

/-- C4 counterexample: with limit 1, a vector hit plus a distinct fallback hit
merge into two results — the merged sequence is not truncated to the limit. -/
theorem merged_results_exceed_limit :
    resultCount (memory_search s4 7 "u" "tea" (some [1]) 1 (1 / 2)).1 = 2 ∧
      ¬ resultCount (memory_search s4 7 "u" "tea" (some [1]) 1 (1 / 2)).1 ≤ 1 := by
  refine ⟨by decide, by decide⟩

/-- C4 (amended): the merged result sequence is not truncated after the merge;
its length is bounded by the limit plus MIN_RESULTS_FOR_FALLBACK - 1 (the
fallback only fires when fewer than MIN_RESULTS_FOR_FALLBACK vector rows came
back, and contributes at most limit rows), and by the limit alone when no
fallback merge happens (when the fallback condition — fewer than
MIN_RESULTS_FOR_FALLBACK vector rows and a query of at most three tokens —
does not hold). -/
theorem search_result_length_bound (s : State) (now : Nat) (uid q : String)
    (qv : List ℚ) (lim : Nat) (thr : ℚ) :
    resultCount (memory_search s now uid q (some qv) lim thr).1 ≤
        lim + (MIN_RESULTS_FOR_FALLBACK - 1) ∧
      (¬((searchSimilarRows s uid qv lim thr).length < MIN_RESULTS_FOR_FALLBACK ∧
          tokenCount q ≤ 3) →
        resultCount (memory_search s now uid q (some qv) lim thr).1 ≤ lim) := by
  have hM : MIN_RESULTS_FOR_FALLBACK = 3 := rfl
  have h1 : resultCount (memory_search s now uid q (some qv) lim thr).1 =
      (if (searchSimilarRows s uid qv lim thr).length < MIN_RESULTS_FOR_FALLBACK ∧
          tokenCount q ≤ 3 then
        mergeFallback (searchSimilarRows s uid qv lim thr)
          (searchText
            (bumpState s ((searchSimilarRows s uid qv lim thr).map (fun r => r.entry.id))
              now) uid q lim)
      else searchSimilarRows s uid qv lim thr).length := rfl
  constructor
  · rw [h1]
    split
    · next hc =>
      refine le_trans (length_mergeFallback_le _ _) ?_
      have h3 := length_searchText_le
        (bumpState s ((searchSimilarRows s uid qv lim thr).map (fun r => r.entry.id)) now)
        uid q lim
      have h4 := hc.1
      omega
    · have h5 := length_searchSimilarRows_le s uid qv lim thr
      omega
  · intro hnc
    rw [h1, if_neg hnc]
    exact length_searchSimilarRows_le s uid qv lim thr

/-- Witness for C4 (amended): a four-token query suppresses the fallback, and
both bounds hold at a concrete state. -/
theorem search_result_length_bound_witness :
    ¬((searchSimilarRows s9 "u" [1] 5 (1 / 2)).length < MIN_RESULTS_FOR_FALLBACK ∧
        tokenCount "a b c d" ≤ 3) ∧
      (resultCount (memory_search s9 0 "u" "a b c d" (some [1]) 5 (1 / 2)).1 ≤
          5 + (MIN_RESULTS_FOR_FALLBACK - 1) ∧
        resultCount (memory_search s9 0 "u" "a b c d" (some [1]) 5 (1 / 2)).1 ≤ 5) :=
  ⟨by decide,
    (search_result_length_bound s9 0 "u" "a b c d" [1] 5 (1 / 2)).1,
    (search_result_length_bound s9 0 "u" "a b c d" [1] 5 (1 / 2)).2 (by decide)⟩

end Jarvis
